import Mathlib

/-!
Verification of the fitgrid grid-fitting engine against its specification.

The definitions below are a shallow embedding of `src/fitgrid/epochs.py` and
`src/fitgrid/io.py`.  A pandas `DataFrame` is modelled as a `PTable`: a list of
named integer index levels, named data columns, and rows.  Machine floats in
the distance computation are modelled as real numbers, with the one genuinely
IEEE-specific operation (division producing NaN/inf) made explicit in
`NpFloat`/`npDiv`.  Python exceptions become `Except` values.
-/

/-- The package-level default name of the trial-identifier index column
(`fitgrid.EPOCH_ID`, imported by `Epochs.__init__`).  The concrete string is
immaterial to the properties proved here. -/
def EPOCH_ID : String := "epoch_id"

/-- The package-level default name of the time index column (`fitgrid.TIME`). -/
def TIME : String := "time"

/-- A long-form pandas DataFrame: named index levels (holding integer keys),
named data columns, and rows carrying their index values and data values. -/
structure PTable (α : Type) where
  indexNames : List String
  columns : List String
  rows : List (List Int × List α)
deriving DecidableEq

/-- A row of the stored table `self.table` (index = `EPOCH_ID`): the epoch-id
index value, the time value (a regular column of the stored table), and the
original data-column values. -/
structure SRow (α : Type) where
  epochId : Int
  time : Int
  data : List α
deriving DecidableEq

/-- Line 62 of epochs.py: `epochs_table.copy().reset_index().set_index(EPOCH_ID)`.
Each row keeps its `EPOCH_ID` index value as the new index and its `TIME`
index value as a regular column; row order is preserved. -/
def storeRows (t : PTable α) : List (SRow α) :=
  t.rows.map (fun r =>
    { epochId := r.1.getD (t.indexNames.indexOf EPOCH_ID) 0
      time := r.1.getD (t.indexNames.indexOf TIME) 0
      data := r.2 })

/-- `table.groupby(TIME)` with pandas defaults: group keys sorted ascending,
rows within each group in original row order. -/
def groupbyTime (rows : List (SRow α)) : List (Int × List (SRow α)) :=
  (List.insertionSort (· ≤ ·) (rows.map (fun r => r.time)).dedup).map
    (fun k => (k, rows.filter (fun r => r.time == k)))

/-- The errors raised by the embedded code (`FitGridError` variants, the
`ValueError` raised by `lmer`, Python `AssertionError`/`AttributeError`, and
the errors numpy/pandas raise inside `distances`). -/
inductive Err where
  | missingChannels (missing : List String)
  | missingIndexColumn (item : String)
  | snapshotMismatch (idx : Int)
  | duplicateEpochIds
  | noneAttribute
  | missingLHS (missing : List String)
  | lmerRHSValueError
  | assertionFailed
  | emptyMaxValueError
  | seriesLengthMismatch
deriving DecidableEq

deriving instance DecidableEq for Except

/-- The `EPOCH_ID` index of one time snapshot (`group.index`), in row order. -/
def snapshotIds (g : Int × List (SRow α)) : List Int :=
  g.2.map (fun r => r.epochId)

/-- Lines 67-86 of epochs.py: the consecutive-snapshot comparison loop.
`prev_group.index.equals(cur_group.index)` is order-sensitive list equality;
after the loop the last group's index is checked for duplicates; if the loop
body never ran (`prev_group` is still `None`, i.e. the table was empty) the
attribute access `prev_group.index` raises `AttributeError`. -/
def checkPairsLoop : Option (List Int) → List (Int × List (SRow α)) → Except Err Unit
  | none, [] => .error .noneAttribute
  | some prev, [] => if prev.Nodup then .ok () else .error .duplicateEpochIds
  | none, g :: rest => checkPairsLoop (some (snapshotIds g)) rest
  | some prev, g :: rest =>
      if prev = snapshotIds g then checkPairsLoop (some (snapshotIds g)) rest
      else .error (.snapshotMismatch g.1)

/-- The state stored by a validated `Epochs` container: `self.channels`,
the original data-column names (needed by `distances`' column selection),
`self.table.columns` (the former non-`EPOCH_ID` index levels followed by the
original columns), `self.table`'s rows, and `self._epoch_index`. -/
structure Epochs (α : Type) where
  channels : List String
  columns : List String
  storedCols : List String
  srows : List (SRow α)
  epochIndex : List Int
deriving DecidableEq

/-- `Epochs.__init__` (epochs.py lines 30-92): channel-list validation against
the input table's columns, required index columns (`EPOCH_ID` first, then
`TIME`), re-indexing, the snapshot-consistency loop, and storing the state.
The Python dynamic-type checks (`channels` a list of strings, the input a
DataFrame) are discharged statically by the types of the embedding. -/
def Epochs.construct (t : PTable α) (channels : List String) : Except Err (Epochs α) :=
  if (channels.filter (fun c => decide (c ∉ t.columns))).dedup ≠ [] then
    .error (.missingChannels ((channels.filter (fun c => decide (c ∉ t.columns))).dedup))
  else if EPOCH_ID ∉ t.indexNames then .error (.missingIndexColumn EPOCH_ID)
  else if TIME ∉ t.indexNames then .error (.missingIndexColumn TIME)
  else
    match checkPairsLoop none (groupbyTime (storeRows t)) with
    | .error e => .error e
    | .ok _ =>
        .ok { channels := channels
              columns := t.columns
              storedCols := (t.indexNames.erase EPOCH_ID) ++ t.columns
              srows := storeRows t
              epochIndex := snapshotIds ((groupbyTime (storeRows t)).headD (0, [])) }

/-- Lines 94-109, `_validate_LHS`: the LHS must be a list of strings (static
here) and every item must be present in `self.table.columns` — note: the
STORED table's columns, which include the former `TIME` index level. -/
def Epochs.validate_LHS (ep : Epochs α) (LHS : List String) : Except Err Unit :=
  if (LHS.filter (fun c => decide (c ∉ ep.storedCols))).dedup ≠ [] then
    .error (.missingLHS ((LHS.filter (fun c => decide (c ∉ ep.storedCols))).dedup))
  else .ok ()

/-- Sequential error-propagating map: the first error in list order aborts the
whole traversal (Python exception semantics for a consumed iterator). -/
def mapME (g : τ → Except ε ρ) : List τ → Except ε (List ρ)
  | [] => .ok []
  | t :: ts =>
    match g t with
    | .error e => .error e
    | .ok r =>
      match mapME g ts with
      | .error e => .error e
      | .ok rs => .ok (r :: rs)

/-- Lines 158-161, `process_key_and_group`: the dict comprehension invokes
`function(group, channel)` for the channels in list order and pairs the
results with the group key (`pd.Series(results, name=key)`); the first raised
error propagates. -/
def process_key_and_group (function : List (SRow α) → String → Except ε β)
    (channels : List String) (kg : Int × List (SRow α)) : Except ε (Int × List β) :=
  match mapME (fun c => function kg.2 c) channels with
  | .error e => .error e
  | .ok rs => .ok (kg.1, rs)

/-- `Pool.imap` (line 217): workers complete the per-timepoint tasks in an
arbitrary completion schedule `sched` (a permutation of the task indices), the
pool keys each result by its task index, and `imap` yields results back in
task-submission order. -/
def poolImap (sched : List Nat) (g : τ → ρ) (tasks : List τ) : List ρ :=
  (List.range tasks.length).filterMap
    (fun j => (sched.filterMap (fun i => (tasks[i]?).map (fun t => (i, g t)))).lookup j)

/-- The assembled grid (lines 221-223): `pd.concat(results, axis=1).T` — rows
are the time keys in group order, columns are the requested channels. -/
structure Grid (β : Type) where
  times : List Int
  channels : List String
  cells : List (List β)
deriving DecidableEq

/-- An error escaping `run_model`: either a `FitGridError` raised by the
validation code or an error raised by the user's fitting callable. -/
inductive RunErr (ε : Type) where
  | fitgrid (e : Err)
  | user (e : ε)
deriving DecidableEq

/-- Lines 163-223, `run_model`: default the channels to `self.channels`,
validate them with `_validate_LHS`, group the stored table by `TIME`, map
`process_key_and_group` over the groups — serially via `map`, or in parallel
via `Pool(n_cores).imap` under completion schedule `sched` — and assemble the
grid.  An error from the callable aborts the whole call before any grid is
built. -/
def Epochs.run_model (ep : Epochs α) (function : List (SRow α) → String → Except ε β)
    (channels : Option (List String)) (parallel : Bool) (n_cores : Nat)
    (sched : List Nat) : Except (RunErr ε) (Grid β) :=
  match ep.validate_LHS (channels.getD ep.channels) with
  | .error e => .error (.fitgrid e)
  | .ok _ =>
    match
      if parallel then
        mapME id (poolImap sched
          (process_key_and_group function (channels.getD ep.channels)) (groupbyTime ep.srows))
      else
        mapME (process_key_and_group function (channels.getD ep.channels)) (groupbyTime ep.srows)
    with
    | .error e => .error (.user e)
    | .ok rows =>
        .ok { times := rows.map (fun r => r.1)
              channels := channels.getD ep.channels
              cells := rows.map (fun r => r.2) }

/-- Lines 264-277, `lmer`: default the LHS to `self.channels`, reject a missing
RHS with a `ValueError`, validate the LHS — and then call `run_model` WITHOUT
the channels argument, so `run_model` falls back to `self.channels`.  The
pymer4 `Lmer` fit is an external collaborator and is modelled as the opaque
callable `runner` (built from the RHS string by `partial(self._lmer, RHS=RHS)`). -/
def Epochs.lmer (ep : Epochs α) (runner : List (SRow α) → String → Except ε β)
    (LHS : Option (List String)) (RHS : Option String) (parallel : Bool)
    (n_cores : Nat) (sched : List Nat) : Except (RunErr ε) (Grid β) :=
  match RHS with
  | none => .error (.fitgrid .lmerRHSValueError)
  | some _ =>
    match ep.validate_LHS (LHS.getD ep.channels) with
    | .error e => .error (.fitgrid e)
    | .ok _ => ep.run_model runner none parallel n_cores sched

/-- Fuelled worker for `chunk` (the fuel, instantiated with the list length,
only forces termination and never runs out). -/
def chunkAux : List α → Nat → Nat → List (List α)
  | [], _, _ => []
  | _ :: _, 0, _ => []
  | _ :: _, _ + 1, 0 => []
  | x :: xs, fuel + 1, n + 1 => (x :: xs).take (n + 1) :: chunkAux (xs.drop n) fuel (n + 1)

/-- `np.reshape` into chunks of `n`: split a flat list positionally into
consecutive chunks of length `n` (exact under the size assertion the code
makes before reshaping). -/
def chunk (n : Nat) (l : List α) : List (List α) := chunkAux l l.length n

/-- Line 138: `n_channels = len(table.columns)` after the channel selection. -/
def Epochs.n_channels (ep : Epochs ℝ) : Nat := ep.channels.length

/-- Line 139: `n_epochs = len(table.index.unique(level=EPOCH_ID))`. -/
def Epochs.n_epochs (ep : Epochs α) : Nat :=
  (ep.srows.map (fun r => r.epochId)).dedup.length

/-- Line 140: `n_samples = len(table.index.unique(level=TIME))`. -/
def Epochs.n_samples (ep : Epochs α) : Nat :=
  (ep.srows.map (fun r => r.time)).dedup.length

/-- Lines 134-136: `self.table.reset_index().set_index([EPOCH_ID, TIME])[self.channels]`
— for each stored row (row order preserved), the values of the channel columns
in `self.channels` order. -/
def Epochs.selectChannels (ep : Epochs ℝ) : List (List ℝ) :=
  ep.srows.map (fun r => ep.channels.map (fun c => r.data.getD (ep.columns.indexOf c) 0))

/-- Line 143: `values = table.values.reshape(n_epochs, n_samples, n_channels)`
— a purely positional regrouping of the flat cell sequence. -/
def Epochs.valuesArr (ep : Epochs ℝ) : List (List (List ℝ)) :=
  (chunk (ep.n_samples * ep.n_channels) ep.selectChannels.flatten).map
    (chunk ep.n_channels)

/-- Elementwise vector addition (numpy broadcasting on equal shapes). -/
def vecAdd (a b : List ℝ) : List ℝ := List.zipWith (· + ·) a b

/-- Elementwise matrix addition. -/
def matAdd (a b : List (List ℝ)) : List (List ℝ) := List.zipWith vecAdd a b

/-- Elementwise matrix subtraction (`values - mean`, per epoch block). -/
def matSub (a b : List (List ℝ)) : List (List ℝ) :=
  List.zipWith (fun u v => List.zipWith (· - ·) u v) a b

/-- `np.sum(..., axis=0)` over the rows of a 2-D block: fold of elementwise
addition, starting from a zero vector of the block's width. -/
def colSums (b : List (List ℝ)) : List ℝ :=
  b.foldl vecAdd (List.replicate (b.headD []).length 0)

/-- Line 145: `mean = values.mean(axis=0)` — the elementwise sum over the first
axis divided by the number of epoch blocks. -/
noncomputable def Epochs.meanArr (ep : Epochs ℝ) : List (List ℝ) :=
  match ep.valuesArr with
  | [] => []
  | b :: bs =>
      ((bs.foldl matAdd b).map (fun row =>
        row.map (fun x => x / ((b :: bs).length : ℝ))))

/-- Line 146: `diff = values - mean` (mean broadcast over the epoch axis). -/
noncomputable def Epochs.diffArr (ep : Epochs ℝ) : List (List (List ℝ)) :=
  ep.valuesArr.map (fun b => matSub b ep.meanArr)

/-- Lines 148-149 applied to the 3-D diff array with `axis=1`:
`np.sqrt((data * data).sum(axis=1))` — per epoch block, the square root of the
per-channel column sums of squares. -/
noncomputable def l2_norm3 (data : List (List (List ℝ))) : List (List ℝ) :=
  data.map (fun b => (colSums (b.map (fun row => row.map (fun x => x * x)))).map Real.sqrt)

/-- Lines 148-149 applied to the resulting 2-D array with `axis=1`:
per epoch, the square root of the row sum of squares. -/
noncomputable def l2_norm2 (data : List (List ℝ)) : List ℝ :=
  data.map (fun row => Real.sqrt ((row.map (fun x => x * x)).sum))

/-- Line 152: `distances_arr = l2_norm(l2_norm(diff))`. -/
noncomputable def Epochs.distances_arr (ep : Epochs ℝ) : List ℝ :=
  l2_norm2 (l2_norm3 ep.diffArr)

/-- A numpy float64 scalar as it matters here: NaN, positive infinity, or an
ordinary (real) value. -/
inductive NpFloat where
  | nan
  | inf
  | val (x : ℝ)

/-- IEEE-754 division as numpy performs it for the nonnegative operands that
arise in `distances`: `0/0` is NaN, `x/0` with `x > 0` is `inf`, and division
by a nonzero denominator is exact real division. -/
noncomputable def npDiv (x m : ℝ) : NpFloat :=
  if m = 0 then (if x = 0 then .nan else .inf) else .val (x / m)

/-- Lines 119-156, `distances`: check the reshape size assertion, take the
maximum of the distance array (numpy raises on an empty array), scale every
distance by that maximum, and pair the results with `self._epoch_index`
(`pd.Series` raises if the lengths disagree). -/
noncomputable def Epochs.distances (ep : Epochs ℝ) : Except Err (List (Int × NpFloat)) :=
  if ep.srows.length * ep.n_channels ≠ ep.n_channels * ep.n_epochs * ep.n_samples then
    .error .assertionFailed
  else
    match ep.distances_arr with
    | [] => .error .emptyMaxValueError
    | d :: ds =>
        if ep.epochIndex.length ≠ (d :: ds).length then .error .seriesLengthMismatch
        else
          .ok (ep.epochIndex.zip ((d :: ds).map (fun x => npDiv x (ds.foldl max d))))

/-- The runtime class of one cell of a pickled grid, as far as `load_grid`'s
`isinstance` tests can observe it. -/
inductive CellKind where
  | regressionResults
  | regressionResultsWrapper
  | lmer
  | other (tag : Nat)
deriving DecidableEq

/-- The `FitGrid` class chosen by `load_grid`. -/
inductive GridClass where
  | fitGrid
  | lmFitGrid
  | lmerFitGrid
deriving DecidableEq

/-- The pickled payload `(_grid, epoch_index, time)` written by `grid.save`. -/
structure SavedPayload where
  grid : List (List CellKind)
  epochIndex : List Int
  time : String
deriving DecidableEq

/-- The object returned by `load_grid`: a grid of the chosen class carrying the
deserialized state unchanged. -/
structure LoadedGrid where
  cls : GridClass
  grid : List (List CellKind)
  epochIndex : List Int
  time : String
deriving DecidableEq

/-- io.py lines 113-139, `load_grid`: unpickle `(_grid, epoch_index, time)`,
inspect `tester = _grid.iloc[0, 0]`, and dispatch on its type —
`RegressionResults`/`RegressionResultsWrapper` give `LMFitGrid`, `Lmer` gives
`LMERFitGrid`, anything else falls back to `FitGrid`.  The caller supplies no
type information.  (`iloc[0, 0]` on an empty grid would raise; the claims are
stated for nonempty grids, so the default below is never consulted there.) -/
def load_grid (p : SavedPayload) : LoadedGrid :=
  let tester := (p.grid.headD []).headD (.other 0)
  let cls :=
    match tester with
    | .regressionResults => GridClass.lmFitGrid
    | .regressionResultsWrapper => GridClass.lmFitGrid
    | .lmer => GridClass.lmerFitGrid
    | .other _ => GridClass.fitGrid
  { cls := cls, grid := p.grid, epochIndex := p.epochIndex, time := p.time }

/-- A Python store: objects live at references (list positions); reads and
writes go through the reference. -/
def readRef (h : List (PTable α)) (r : Nat) : PTable α :=
  h.getD r { indexNames := [], columns := [], rows := [] }

/-- Overwriting the object behind a reference (the caller mutating their
original table in place). -/
def writeRef (h : List (PTable α)) (r : Nat) (t : PTable α) : List (PTable α) :=
  h.set r t

/-- `Epochs` construction against the store: line 62's `epochs_table.copy()`
places an independent copy of the caller's table at a fresh reference; the
caller's slot is untouched.  Validation failure leaves the store unchanged. -/
def constructRef (h : List (PTable α)) (r : Nat) (channels : List String) :
    Except Err (List (PTable α) × Nat × Epochs α) :=
  match Epochs.construct (readRef h r) channels with
  | .error e => .error e
  | .ok ep => .ok (h ++ [readRef h r], h.length, ep)

/-! Concrete instances used by witnesses and counterexamples. -/

/-- A minimal well-formed table: standard two-level index, one channel. -/
def tStd : PTable Int :=
  { indexNames := ["epoch_id", "time"], columns := ["ch0"], rows := [([7, 0], [5])] }

/-- The container `tStd` constructs to. -/
def epStd : Epochs Int :=
  { channels := ["ch0"], columns := ["ch0"], storedCols := ["time", "ch0"],
    srows := [{ epochId := 7, time := 0, data := [5] }], epochIndex := [7] }

/-- A table carrying the identifying keys only as plain data columns. -/
def tColsOnly : PTable Int :=
  { indexNames := ["row"], columns := ["epoch_id", "time", "ch"], rows := [([0], [1, 0, 5])] }

/-- A table whose two time partitions have identical trial-identifier
membership (no duplicates) but in different row order. -/
def tSwapped : PTable Int :=
  { indexNames := ["epoch_id", "time"], columns := ["ch"],
    rows := [([1, 0], [9]), ([2, 0], [9]), ([2, 1], [9]), ([1, 1], [9])] }

/-- A two-timepoint, two-channel, one-trial container. -/
def epTwo : Epochs Nat :=
  { channels := ["a", "b"], columns := ["a", "b"], storedCols := ["time", "a", "b"],
    srows := [{ epochId := 1, time := 0, data := [3, 4] },
              { epochId := 1, time := 1, data := [3, 4] }],
    epochIndex := [1] }

/-- A fitting callable that raises only at the cell (time 0, channel "a"). -/
def fFail00 : List (SRow Nat) → String → Except String Nat :=
  fun g c => if c == "a" && g.any (fun r => r.time == 0) then .error "boom" else .ok 0

/-- A fitting callable that raises only at the cell (time 1, channel "b"). -/
def fFail11 : List (SRow Nat) → String → Except String Nat :=
  fun g c => if c == "b" && g.any (fun r => r.time == 1) then .error "boom" else .ok 0

/-- A fitting callable that always succeeds. -/
def fOk : List (SRow Nat) → String → Except String Nat := fun _ _ => .ok 0

/-- A payload whose representative cell is an `Lmer` object. -/
def pLmer : SavedPayload := { grid := [[.lmer]], epochIndex := [1], time := "time" }

/-- Two identical trials, one timepoint, one channel. -/
def epSame : Epochs ℝ :=
  { channels := ["ch"], columns := ["ch"], storedCols := ["time", "ch"],
    srows := [{ epochId := 1, time := 0, data := [5] },
              { epochId := 2, time := 0, data := [5] }],
    epochIndex := [1, 2] }

/-- Two distinct trials symmetric about their mean trajectory. -/
def epTie : Epochs ℝ :=
  { channels := ["ch"], columns := ["ch"], storedCols := ["time", "ch"],
    srows := [{ epochId := 1, time := 0, data := [0] },
              { epochId := 2, time := 0, data := [2] }],
    epochIndex := [1, 2] }

/-! Helper lemmas. -/

theorem filter_not_mem_eq_nil (chs cols : List String) (h : ∀ c ∈ chs, c ∈ cols) :
    chs.filter (fun c => decide (c ∉ cols)) = [] := by
  apply List.filter_eq_nil_iff.mpr
  intro a ha
  simp [h a ha]

theorem validate_LHS_ok_iff (ep : Epochs α) (LHS : List String) :
    ep.validate_LHS LHS = .ok () ↔ ∀ c ∈ LHS, c ∈ ep.storedCols := by
  simp [Epochs.validate_LHS, List.dedup_eq_nil, List.filter_eq_nil_iff]

theorem construct_fields (t : PTable α) (chans : List String) (ep : Epochs α)
    (hc : Epochs.construct t chans = .ok ep) :
    ep.channels = chans ∧ ep.columns = t.columns ∧
    ep.storedCols = (t.indexNames.erase EPOCH_ID) ++ t.columns ∧
    ep.srows = storeRows t ∧
    ep.epochIndex = snapshotIds ((groupbyTime (storeRows t)).headD (0, [])) := by
  unfold Epochs.construct at hc
  split at hc
  · cases hc
  split at hc
  · cases hc
  split at hc
  · cases hc
  split at hc
  · cases hc
  rw [Except.ok.injEq] at hc
  subst hc
  exact ⟨rfl, rfl, rfl, rfl, rfl⟩

/-- C6 (amended): the constructor accepts the identifying keys ONLY as index
levels — it performs no promotion of plain columns (promotion happens only in
the HDF loader).  If a key is absent from the index level names, a
`FitGridError` naming that key is raised, before any partitioning, whatever
the rows contain.  `EPOCH_ID` is checked first. -/
theorem construct_missing_index_key (t : PTable α) (channels : List String)
    (hch : ∀ c ∈ channels, c ∈ t.columns) :
    (EPOCH_ID ∉ t.indexNames →
      Epochs.construct t channels = .error (.missingIndexColumn EPOCH_ID)) ∧
    (EPOCH_ID ∈ t.indexNames → TIME ∉ t.indexNames →
      Epochs.construct t channels = .error (.missingIndexColumn TIME)) := by
  have hm : (channels.filter (fun c => decide (c ∉ t.columns))).dedup = [] := by
    rw [filter_not_mem_eq_nil channels t.columns hch, List.dedup_nil]
  constructor
  · intro h1
    unfold Epochs.construct
    rw [if_neg (fun h => h hm), if_pos h1]
  · intro h1 h2
    unfold Epochs.construct
    rw [if_neg (fun h => h hm), if_neg (fun h => h h1), if_pos h2]

/-- Witness for the amended C6 theorem at a concrete table. -/
theorem construct_missing_index_key_witness :
    (∀ c ∈ (["ch"] : List String), c ∈ tColsOnly.columns) ∧
    Epochs.construct tColsOnly ["ch"] = .error (.missingIndexColumn EPOCH_ID) :=
  ⟨by decide, (construct_missing_index_key tColsOnly ["ch"] (by decide)).1 (by decide)⟩

/-- C6 counterexample: a table carrying both keys as plain data columns is
REJECTED by construction (no promotion to the index happens), refuting the
claim that construction accepts the keys as plain columns. -/
theorem construct_rejects_plain_columns :
    Epochs.construct tColsOnly ["ch"] = .error (.missingIndexColumn EPOCH_ID) ∧
    EPOCH_ID ∈ tColsOnly.columns ∧ TIME ∈ tColsOnly.columns := by
  decide

/-- C7 (amended): `run_model`'s channel validation applies the same list-of-
strings and missing-set rule as construction, but checks membership against
the STORED table's columns — the original columns plus the former non-
`EPOCH_ID` index levels (in particular the `TIME` key).  For channel lists
disjoint from the index level names the two rules coincide. -/
theorem validate_LHS_vs_construct_rule (t : PTable α) (chans : List String)
    (ep : Epochs α) (LHS : List String)
    (hc : Epochs.construct t chans = .ok ep) :
    (ep.validate_LHS LHS = .ok () ↔ ∀ c ∈ LHS, c ∈ ep.storedCols) ∧
    ep.storedCols = (t.indexNames.erase EPOCH_ID) ++ t.columns ∧
    ((∀ c ∈ LHS, c ∉ t.indexNames) →
      (ep.validate_LHS LHS = .ok () ↔ ∀ c ∈ LHS, c ∈ t.columns)) := by
  obtain ⟨-, -, hcols, -, -⟩ := construct_fields t chans ep hc
  refine ⟨validate_LHS_ok_iff ep LHS, hcols, fun hdisj => ?_⟩
  rw [validate_LHS_ok_iff ep LHS]
  constructor
  · intro h c hcLHS
    have := h c hcLHS
    rw [hcols, List.mem_append] at this
    rcases this with h1 | h1
    · exact absurd (List.mem_of_mem_erase h1) (hdisj c hcLHS)
    · exact h1
  · intro h c hcLHS
    rw [hcols, List.mem_append]
    exact Or.inr (h c hcLHS)

/-- Witness for the amended C7 theorem at a concrete constructed container. -/
theorem validate_LHS_vs_construct_rule_witness :
    Epochs.construct tStd ["ch0"] = .ok epStd ∧
    ((epStd.validate_LHS ["ch0"] = .ok () ↔ ∀ c ∈ (["ch0"] : List String), c ∈ epStd.storedCols) ∧
      epStd.storedCols = (tStd.indexNames.erase EPOCH_ID) ++ tStd.columns ∧
      ((∀ c ∈ (["ch0"] : List String), c ∉ tStd.indexNames) →
        (epStd.validate_LHS ["ch0"] = .ok () ↔ ∀ c ∈ (["ch0"] : List String), c ∈ tStd.columns))) :=
  ⟨by decide, validate_LHS_vs_construct_rule tStd ["ch0"] epStd ["ch0"] (by decide)⟩

/-- C7 counterexample: the fit-side rule is NOT exactly the construction rule.
The stored table's columns contain the former `TIME` index level, so
`_validate_LHS` accepts the channel list `[TIME]` that construction rejects
against the same table. -/
theorem validate_LHS_accepts_time_column :
    Epochs.construct tStd ["ch0"] = .ok epStd ∧
    epStd.validate_LHS [TIME] = .ok () ∧
    Epochs.construct tStd [TIME] = .error (.missingChannels [TIME]) := by
  decide

/-- C9: `load_grid` dispatches on the runtime class of the representative cell
at position (0, 0) — statsmodels regression results (plain or wrapped) give
the least-squares grid, `Lmer` cells give the mixed-effects grid, and any
other cell class falls back to the base `FitGrid`; the deserialized state is
carried over unchanged and the caller supplies no type information. -/
theorem load_grid_dispatches_on_cell (p : SavedPayload) (c0 : CellKind)
    (row : List CellKind) (rest : List (List CellKind))
    (hg : p.grid = (c0 :: row) :: rest) :
    (load_grid p).grid = p.grid ∧ (load_grid p).epochIndex = p.epochIndex ∧
    (load_grid p).time = p.time ∧
    ((c0 = .regressionResults ∨ c0 = .regressionResultsWrapper) →
      (load_grid p).cls = .lmFitGrid) ∧
    (c0 = .lmer → (load_grid p).cls = .lmerFitGrid) ∧
    (∀ tag, c0 = .other tag → (load_grid p).cls = .fitGrid) := by
  refine ⟨rfl, rfl, rfl, ?_, ?_, ?_⟩
  · rintro (h | h) <;> subst h <;> simp [load_grid, hg]
  · intro h
    subst h
    simp [load_grid, hg]
  · intro tag h
    subst h
    simp [load_grid, hg]

/-- Witness for the C9 theorem at a concrete `Lmer`-cell payload. -/
theorem load_grid_dispatches_on_cell_witness :
    pLmer.grid = (CellKind.lmer :: []) :: [] ∧
    ((load_grid pLmer).grid = pLmer.grid ∧ (load_grid pLmer).epochIndex = pLmer.epochIndex ∧
      (load_grid pLmer).time = pLmer.time ∧
      ((CellKind.lmer = .regressionResults ∨ CellKind.lmer = .regressionResultsWrapper) →
        (load_grid pLmer).cls = .lmFitGrid) ∧
      (CellKind.lmer = .lmer → (load_grid pLmer).cls = .lmerFitGrid) ∧
      (∀ tag, CellKind.lmer = .other tag → (load_grid pLmer).cls = .fitGrid)) :=
  ⟨rfl, load_grid_dispatches_on_cell pLmer .lmer [] [] rfl⟩

theorem checkPairsLoop_some_ok (gs : List (Int × List (SRow α))) :
    ∀ prev : List Int, checkPairsLoop (some prev) gs = .ok () ↔
      ((∀ g ∈ gs, snapshotIds g = prev) ∧ prev.Nodup) := by
  induction gs with
  | nil =>
    intro prev
    by_cases h : prev.Nodup <;> simp [checkPairsLoop, h]
  | cons g rest ih =>
    intro prev
    by_cases h : prev = snapshotIds g
    · subst h
      simp only [checkPairsLoop, eq_self_iff_true, if_true]
      rw [ih]
      simp [List.forall_mem_cons]
    · simp only [checkPairsLoop, if_neg h]
      constructor
      · intro hc
        exact Except.noConfusion hc
      · rintro ⟨h1, -⟩
        exact absurd (h1 g (List.mem_cons_self g rest)).symm h

theorem checkPairsLoop_none_ok (gs : List (Int × List (SRow α))) :
    checkPairsLoop none gs = .ok () ↔
      (gs ≠ [] ∧ (∀ g ∈ gs, snapshotIds g = snapshotIds (gs.headD (0, []))) ∧
        (snapshotIds (gs.headD (0, []))).Nodup) := by
  cases gs with
  | nil => simp [checkPairsLoop]
  | cons g rest =>
    show checkPairsLoop (some (snapshotIds g)) rest = .ok () ↔ _
    rw [checkPairsLoop_some_ok]
    simp [List.forall_mem_cons]

theorem groupbyTime_ne_nil (rows : List (SRow α)) (h : rows ≠ []) :
    groupbyTime rows ≠ [] := by
  unfold groupbyTime
  intro hmap
  rw [List.map_eq_nil_iff] at hmap
  have hperm := List.perm_insertionSort (α := Int) (· ≤ ·) (rows.map (fun r => r.time)).dedup
  rw [hmap] at hperm
  have hd : (rows.map (fun r => r.time)).dedup = [] := hperm.symm.eq_nil
  rw [List.dedup_eq_nil, List.map_eq_nil_iff] at hd
  exact h hd

/-- C1 (amended): for every NONEMPTY long-form table with the trial-identifier
and time keys present as index columns and a valid channel list, Epochs
construction succeeds if and only if every time partition carries the same
trial-identifier SEQUENCE — identical in membership AND in order — and that
sequence contains no duplicates.  (Membership equality alone is not enough;
and on an empty table the code instead crashes with an AttributeError.) -/
theorem construct_ok_iff_partitions_agree (t : PTable α) (channels : List String)
    (hch : ∀ c ∈ channels, c ∈ t.columns)
    (he : EPOCH_ID ∈ t.indexNames) (ht : TIME ∈ t.indexNames)
    (hrows : t.rows ≠ []) :
    (∃ ep, Epochs.construct t channels = .ok ep) ↔
      ((∀ g ∈ groupbyTime (storeRows t),
          snapshotIds g = snapshotIds ((groupbyTime (storeRows t)).headD (0, []))) ∧
        (snapshotIds ((groupbyTime (storeRows t)).headD (0, []))).Nodup) := by
  have hm : (channels.filter (fun c => decide (c ∉ t.columns))).dedup = [] := by
    rw [filter_not_mem_eq_nil channels t.columns hch, List.dedup_nil]
  have hne : storeRows t ≠ [] := by
    unfold storeRows
    rw [ne_eq, List.map_eq_nil_iff]
    exact hrows
  unfold Epochs.construct
  rw [if_neg (fun h => h hm), if_neg (fun h => h he), if_neg (fun h => h ht)]
  constructor
  · rintro ⟨ep, hep⟩
    rcases hloop : checkPairsLoop none (groupbyTime (storeRows t)) with e | u
    · rw [hloop] at hep
      cases hep
    · have := (checkPairsLoop_none_ok (groupbyTime (storeRows t))).mp (by rw [hloop])
      exact ⟨this.2.1, this.2.2⟩
  · rintro ⟨h1, h2⟩
    have : checkPairsLoop none (groupbyTime (storeRows t)) = .ok () :=
      (checkPairsLoop_none_ok (groupbyTime (storeRows t))).mpr
        ⟨groupbyTime_ne_nil _ hne, h1, h2⟩
    rw [this]
    exact ⟨_, rfl⟩

/-- Witness for the amended C1 theorem at a concrete accepted table. -/
theorem construct_ok_iff_partitions_agree_witness :
    (∀ c ∈ (["ch0"] : List String), c ∈ tStd.columns) ∧
    ((∃ ep, Epochs.construct tStd ["ch0"] = .ok ep) ↔
      ((∀ g ∈ groupbyTime (storeRows tStd),
          snapshotIds g = snapshotIds ((groupbyTime (storeRows tStd)).headD (0, []))) ∧
        (snapshotIds ((groupbyTime (storeRows tStd)).headD (0, []))).Nodup)) :=
  ⟨by decide,
    construct_ok_iff_partitions_agree tStd ["ch0"] (by decide) (by decide) (by decide)
      (by decide)⟩

/-- C1 counterexample: a table whose two time partitions have identical
trial-identifier MEMBERSHIP, each without duplicates, is nevertheless rejected
— `Index.equals` compares by value AND order, so membership equality does not
imply acceptance. -/
theorem construct_rejects_reordered_partitions :
    Epochs.construct tSwapped ["ch"] = .error (.snapshotMismatch 1) ∧
    (∀ g ∈ groupbyTime (storeRows tSwapped),
      (snapshotIds g).toFinset =
        (snapshotIds ((groupbyTime (storeRows tSwapped)).headD (0, []))).toFinset ∧
      (snapshotIds g).Nodup) := by
  decide

theorem mapME_total_ok (g : τ → Except ε ρ) (l : List τ)
    (h : ∀ t ∈ l, ∃ r, g t = .ok r) : ∃ rs, mapME g l = .ok rs := by
  induction l with
  | nil => exact ⟨[], rfl⟩
  | cons t ts ih =>
    obtain ⟨r, hr⟩ := h t (List.mem_cons_self t ts)
    obtain ⟨rs, hrs⟩ := ih (fun x hx => h x (List.mem_cons_of_mem t hx))
    exact ⟨r :: rs, by rw [mapME, hr, hrs]⟩

/-- C8: construction stores a defensive copy of the caller's table.
Constructing from reference `r` leaves every existing store slot unchanged
(the constructor never mutates the caller's table), places the copy at a fresh
reference `c`, and after ANY subsequent in-place overwrite of the caller's
slot `r`, the container's slot still holds the originally-copied value := so
re-running any (pure) container operation — here re-validation itself — gives
the same result as at construction time. -/
theorem constructRef_defensive_copy (h : List (PTable α)) (r : Nat)
    (chans : List String) (h1 : List (PTable α)) (c : Nat) (ep : Epochs α)
    (hr : r < h.length)
    (hc : constructRef h r chans = .ok (h1, c, ep)) :
    (∀ i, i < h.length → readRef h1 i = readRef h i) ∧
    c = h.length ∧
    (∀ t2, readRef (writeRef h1 r t2) c = readRef h r) ∧
    (∀ t2, Epochs.construct (readRef (writeRef h1 r t2) c) chans = .ok ep) := by
  unfold constructRef at hc
  rcases hcon : Epochs.construct (readRef h r) chans with e | ep0
  · rw [hcon] at hc
    cases hc
  · rw [hcon] at hc
    rw [Except.ok.injEq] at hc
    obtain ⟨hh1, hcc, hep⟩ : h1 = h ++ [readRef h r] ∧ c = h.length ∧ ep0 = ep := by
      refine ⟨congrArg Prod.fst hc.symm, ?_, ?_⟩
      · have := congrArg Prod.snd hc
        exact (congrArg Prod.fst this).symm
      · have := congrArg Prod.snd hc
        exact (congrArg Prod.snd this)
    subst hh1 hcc
    have hslot : ∀ t2, readRef (writeRef (h ++ [readRef h r]) r t2) h.length = readRef h r := by
      intro t2
      unfold readRef writeRef
      rw [List.getD_eq_getElem?_getD, List.getElem?_set_ne (Nat.ne_of_lt hr)]
      rw [List.getElem?_append_right (Nat.le_refl h.length)]
      simp [readRef]
    refine ⟨?_, rfl, hslot, ?_⟩
    · intro i hi
      unfold readRef
      rw [List.getD_eq_getElem?_getD, List.getD_eq_getElem?_getD,
        List.getElem?_append_left hi]
      rw [← List.getD_eq_getElem?_getD, List.getD_eq_getElem?_getD]
    · intro t2
      rw [hslot t2, hcon, hep]

/-- Witness for the C8 theorem at a concrete one-slot store. -/
theorem constructRef_defensive_copy_witness :
    (0 < [tStd].length ∧ constructRef [tStd] 0 ["ch0"] = .ok ([tStd, tStd], 1, epStd)) ∧
    ((∀ i, i < [tStd].length → readRef [tStd, tStd] i = readRef [tStd] i) ∧
      1 = [tStd].length ∧
      (∀ t2, readRef (writeRef [tStd, tStd] 0 t2) 1 = readRef [tStd] 0) ∧
      (∀ t2, Epochs.construct (readRef (writeRef [tStd, tStd] 0 t2) 1) ["ch0"] = .ok epStd)) :=
  ⟨⟨by decide, by decide⟩,
    constructRef_defensive_copy [tStd] 0 ["ch0"] [tStd, tStd] 1 epStd (by decide) (by decide)⟩

/-- C10: `lmer` validates its LHS argument, but the fit then runs over the
container's full default channel list — `run_model` is invoked without the
channels argument — so the resulting grid's columns are `self.channels`, not
the validated LHS. -/
theorem lmer_ignores_LHS (ep : Epochs α) (runner : List (SRow α) → String → Except ε β)
    (LHS : List String) (rhs : String) (n_cores : Nat) (sched : List Nat)
    (hLHS : ∀ c ∈ LHS, c ∈ ep.storedCols)
    (hch : ∀ c ∈ ep.channels, c ∈ ep.storedCols)
    (htotal : ∀ g c, ∃ b, runner g c = .ok b)
    (hstrict : ∃ c ∈ ep.channels, c ∉ LHS) :
    ∃ g : Grid β, ep.lmer runner (some LHS) (some rhs) false n_cores sched = .ok g ∧
      g.channels = ep.channels ∧ g.channels ≠ LHS := by
  have hv1 : ep.validate_LHS LHS = .ok () := (validate_LHS_ok_iff ep LHS).mpr hLHS
  have hv2 : ep.validate_LHS ep.channels = .ok () := (validate_LHS_ok_iff ep ep.channels).mpr hch
  obtain ⟨rows, hrows⟩ := mapME_total_ok
    (process_key_and_group runner ep.channels) (groupbyTime ep.srows)
    (fun kg _ => by
      obtain ⟨rs, hrs⟩ := mapME_total_ok (fun c => runner kg.2 c) ep.channels
        (fun c _ => htotal kg.2 c)
      exact ⟨(kg.1, rs), by rw [process_key_and_group, hrs]⟩)
  refine ⟨{ times := rows.map (fun r => r.1), channels := ep.channels,
            cells := rows.map (fun r => r.2) }, ?_, rfl, ?_⟩
  · unfold Epochs.lmer Epochs.run_model
    simp only [Option.getD_some, Option.getD_none, hv1, hv2, if_neg Bool.false_ne_true]
    rw [hrows]
  · obtain ⟨c, hcmem, hcnot⟩ := hstrict
    intro heq
    have heq2 : ep.channels = LHS := heq
    rw [heq2] at hcmem
    exact hcnot hcmem

/-- Witness for the C10 theorem at a concrete container: LHS `["a"]` is a
strict subset of the channels `["a", "b"]`, yet the grid columns are the full
channel list. -/
theorem lmer_ignores_LHS_witness :
    ((∀ c ∈ (["a"] : List String), c ∈ epTwo.storedCols) ∧
      (∀ c ∈ epTwo.channels, c ∈ epTwo.storedCols) ∧
      (∃ c ∈ epTwo.channels, c ∉ (["a"] : List String))) ∧
    (∃ g : Grid Nat, epTwo.lmer fOk (some ["a"]) (some "1 + x") false 4 [] = .ok g ∧
      g.channels = epTwo.channels ∧ g.channels ≠ ["a"]) :=
  ⟨⟨by decide, by decide, by decide⟩,
    lmer_ignores_LHS epTwo fOk ["a"] "1 + x" 4 [] (by decide) (by decide)
      (fun g c => ⟨0, rfl⟩) (by decide)⟩

theorem filterMap_congr_mem (l : List ι) (F G : ι → Option ρ)
    (h : ∀ a ∈ l, F a = G a) : l.filterMap F = l.filterMap G := by
  induction l with
  | nil => rfl
  | cons x xs ih =>
    rw [List.filterMap_cons, List.filterMap_cons, h x (List.mem_cons_self x xs),
      ih (fun a ha => h a (List.mem_cons_of_mem x ha))]

theorem lookup_completed (tasks : List τ) (g : τ → ρ) (sched : List Nat) (j : Nat)
    (hj : j ∈ sched) (hall : ∀ i ∈ sched, i < tasks.length) :
    (sched.filterMap (fun i => (tasks[i]?).map (fun t => (i, g t)))).lookup j
      = (tasks[j]?).map g := by
  induction sched with
  | nil => cases hj
  | cons i is ih =>
    have hi : i < tasks.length := hall i (List.mem_cons_self i is)
    rw [List.filterMap_cons, List.getElem?_eq_getElem hi]
    by_cases hij : j = i
    · subst hij
      simp only [Option.map_some']
      simp [List.lookup_cons, List.getElem?_eq_getElem hi]
    · have hj2 : j ∈ is := by
        rcases List.mem_cons.mp hj with h | h
        · exact absurd h hij
        · exact h
      have ih2 := ih hj2 (fun a ha => hall a (List.mem_cons_of_mem i ha))
      simp only [Option.map_some']
      rw [List.lookup_cons]
      simp only [beq_false_of_ne hij]
      exact ih2

theorem range_filterMap_getElem (g : τ → ρ) (l : List τ) :
    (List.range l.length).filterMap (fun j => (l[j]?).map g) = l.map g := by
  induction l with
  | nil => rfl
  | cons x xs ih =>
    rw [List.length_cons, List.range_succ_eq_map, List.filterMap_cons]
    simp only [List.getElem?_cons_zero, Option.map_some']
    rw [List.filterMap_map]
    have hcomp : ((fun j => ((x :: xs)[j]?).map g) ∘ Nat.succ) = fun j => (xs[j]?).map g := by
      funext j
      simp
    rw [hcomp, ih, List.map_cons]

theorem poolImap_perm (sched : List Nat) (g : τ → ρ) (tasks : List τ)
    (hperm : sched.Perm (List.range tasks.length)) :
    poolImap sched g tasks = tasks.map g := by
  unfold poolImap
  have hall : ∀ i ∈ sched, i < tasks.length := by
    intro i hi
    have := hperm.mem_iff.mp hi
    simpa [List.mem_range] using this
  rw [filterMap_congr_mem _ _ (fun j => (tasks[j]?).map g)
    (fun j hjr => lookup_completed tasks g sched j (hperm.mem_iff.mpr hjr) hall)]
  exact range_filterMap_getElem g tasks

theorem mapME_id_map (g : τ → Except ε ρ) (l : List τ) :
    mapME id (l.map g) = mapME g l := by
  induction l with
  | nil => rfl
  | cons x xs ih =>
    simp only [List.map_cons, mapME, ih, id]

theorem run_model_par_eq_ser (ep : Epochs α)
    (function : List (SRow α) → String → Except ε β) (channels : Option (List String))
    (n1 n2 : Nat) (sched sched2 : List Nat)
    (hperm : sched.Perm (List.range (groupbyTime ep.srows).length)) :
    ep.run_model function channels true n1 sched
      = ep.run_model function channels false n2 sched2 := by
  unfold Epochs.run_model
  rw [poolImap_perm sched _ _ hperm, mapME_id_map]
  simp

/-- C2: for every (pure, deterministic) fitting callable, every channel list,
every worker count `n >= 1` and every worker completion order, parallel
`run_model` produces exactly the grid of serial `run_model`: identical cells
at identical (time, channel) positions, identical row (time) and column
(channel) ordering. -/
theorem run_model_parallel_eq_serial (ep : Epochs α)
    (function : List (SRow α) → String → Except ε β) (channels : Option (List String))
    (n_cores : Nat) (sched : List Nat)
    (hn : 1 ≤ n_cores)
    (hperm : sched.Perm (List.range (groupbyTime ep.srows).length)) :
    ep.run_model function channels true n_cores sched
      = ep.run_model function channels false n_cores sched :=
  run_model_par_eq_ser ep function channels n_cores n_cores sched sched hperm

/-- Witness for the C2 theorem: a 2-timepoint container run with the workers
finishing in reversed order. -/
theorem run_model_parallel_eq_serial_witness :
    (1 ≤ 4 ∧ ([1, 0] : List Nat).Perm (List.range (groupbyTime epTwo.srows).length)) ∧
    epTwo.run_model fOk (some ["a", "b"]) true 4 [1, 0]
      = epTwo.run_model fOk (some ["a", "b"]) false 4 [1, 0] :=
  ⟨⟨by decide, by decide⟩,
    run_model_parallel_eq_serial epTwo fOk (some ["a", "b"]) 4 [1, 0] (by decide) (by decide)⟩

theorem mapME_error_from (g : τ → Except ε ρ) (l : List τ) (e : ε)
    (h : mapME g l = .error e) : ∃ t ∈ l, g t = .error e := by
  induction l with
  | nil => cases h
  | cons x xs ih =>
    rw [mapME] at h
    rcases hx : g x with e2 | r
    · rw [hx] at h
      cases h
      exact ⟨x, List.mem_cons_self x xs, hx⟩
    · rw [hx] at h
      rcases hxs : mapME g xs with e2 | rs
      · rw [hxs] at h
        cases h
        obtain ⟨t, ht, hte⟩ := ih hxs
        exact ⟨t, List.mem_cons_of_mem x ht, hte⟩
      · rw [hxs] at h
        cases h

theorem mapME_error_of_exists (g : τ → Except ε ρ) (l : List τ)
    (h : ∃ t ∈ l, ∃ e, g t = .error e) : ∃ e, mapME g l = .error e := by
  induction l with
  | nil =>
    obtain ⟨t, ht, -⟩ := h
    cases ht
  | cons x xs ih =>
    rcases hx : g x with e | r
    · exact ⟨e, by rw [mapME, hx]⟩
    · obtain ⟨t, ht, e, hte⟩ := h
      rcases List.mem_cons.mp ht with rfl | ht2
      · rw [hx] at hte
        cases hte
      · obtain ⟨e2, he2⟩ := ih ⟨t, ht2, e, hte⟩
        exact ⟨e2, by rw [mapME, hx, he2]⟩

theorem process_error_of_exists (function : List (SRow α) → String → Except ε β)
    (chans : List String) (kg : Int × List (SRow α))
    (h : ∃ c ∈ chans, ∃ e, function kg.2 c = .error e) :
    ∃ e, process_key_and_group function chans kg = .error e := by
  obtain ⟨e, he⟩ := mapME_error_of_exists (fun c => function kg.2 c) chans h
  exact ⟨e, by rw [process_key_and_group, he]⟩

theorem process_error_from (function : List (SRow α) → String → Except ε β)
    (chans : List String) (kg : Int × List (SRow α)) (e : ε)
    (h : process_key_and_group function chans kg = .error e) :
    ∃ c ∈ chans, function kg.2 c = .error e := by
  unfold process_key_and_group at h
  rcases hm : mapME (fun c => function kg.2 c) chans with e2 | rs
  · rw [hm] at h
    cases h
    exact mapME_error_from _ _ _ hm
  · rw [hm] at h
    cases h

/-- C3 (amended): if the fitting callable raises for any (time, channel) cell,
the whole run_model call raises and no grid — not even a partial one — is
returned; the surfaced error is, verbatim, the error raised by the callable at
one of its failing cells.  The code attaches no explicit (time, channel)
context to the propagated error. -/
theorem run_model_abandons_on_error (ep : Epochs α)
    (function : List (SRow α) → String → Except ε β) (channels : Option (List String))
    (parallel : Bool) (n_cores : Nat) (sched : List Nat)
    (hval : ep.validate_LHS (channels.getD ep.channels) = .ok ())
    (hsched : parallel = true → sched.Perm (List.range (groupbyTime ep.srows).length))
    (hfail : ∃ kg ∈ groupbyTime ep.srows, ∃ c ∈ channels.getD ep.channels,
        ∃ e, function kg.2 c = .error e) :
    ∃ e, ep.run_model function channels parallel n_cores sched = .error (.user e) ∧
      ∃ kg ∈ groupbyTime ep.srows, ∃ c ∈ channels.getD ep.channels,
        function kg.2 c = .error e := by
  have hser : ∃ e, ep.run_model function channels false n_cores sched = .error (.user e) ∧
      ∃ kg ∈ groupbyTime ep.srows, ∃ c ∈ channels.getD ep.channels,
        function kg.2 c = .error e := by
    obtain ⟨kg0, hkg0, hc0⟩ := hfail
    have hex : ∃ kg ∈ groupbyTime ep.srows, ∃ e,
        process_key_and_group function (channels.getD ep.channels) kg = .error e :=
      ⟨kg0, hkg0, process_error_of_exists _ _ kg0 hc0⟩
    obtain ⟨e, he⟩ := mapME_error_of_exists _ _ hex
    obtain ⟨kg, hkg, hkge⟩ := mapME_error_from _ _ _ he
    obtain ⟨c, hcmem, hce⟩ := process_error_from _ _ _ _ hkge
    refine ⟨e, ?_, kg, hkg, c, hcmem, hce⟩
    unfold Epochs.run_model
    rw [hval]
    simp only [Bool.false_eq_true, if_false]
    rw [he]
  cases parallel
  · exact hser
  · rw [run_model_par_eq_ser ep function channels n_cores n_cores sched sched (hsched rfl)]
    exact hser

/-- Witness for the amended C3 theorem: a callable failing at the cell
(time 1, channel "b") of a 2-timepoint, 2-channel container. -/
theorem run_model_abandons_on_error_witness :
    epTwo.validate_LHS ((none : Option (List String)).getD epTwo.channels) = .ok () ∧
    (∃ e, epTwo.run_model fFail11 none false 4 [] = .error (.user e) ∧
      ∃ kg ∈ groupbyTime epTwo.srows, ∃ c ∈ (none : Option (List String)).getD epTwo.channels,
        fFail11 kg.2 c = .error e) :=
  ⟨by decide,
    run_model_abandons_on_error epTwo fFail11 none false 4 [] (by decide)
      (fun h => Bool.noConfusion h)
      ⟨(1, [{ epochId := 1, time := 1, data := [3, 4] }]), by decide, "b", by decide,
        "boom", by decide⟩⟩

/-- C3 counterexample: two callables failing at DIFFERENT (time, channel)
cells yield IDENTICAL run_model results — the propagated error is the
callable's error verbatim with no (time, channel) context attached, so the
claim that the error reaches the caller "together with the (time, channel)
context that triggered it" fails: the caller cannot recover the cell from
what run_model raises. -/
theorem run_model_error_has_no_cell_context :
    epTwo.run_model fFail00 none false 4 [] = .error (.user "boom") ∧
    epTwo.run_model fFail11 none false 4 [] = .error (.user "boom") ∧
    fFail00 [{ epochId := 1, time := 0, data := [3, 4] }] "a" = .error "boom" ∧
    fFail00 [{ epochId := 1, time := 1, data := [3, 4] }] "b" = .ok 0 ∧
    fFail11 [{ epochId := 1, time := 1, data := [3, 4] }] "b" = .error "boom" ∧
    fFail11 [{ epochId := 1, time := 0, data := [3, 4] }] "a" = .ok 0 := by
  decide

theorem chunkAux_shape (n : Nat) (hn : 0 < n) :
    ∀ (a : Nat) (l : List γ) (fuel : Nat), l.length = a * n → l.length ≤ fuel →
      (chunkAux l fuel n).length = a ∧ ∀ c ∈ chunkAux l fuel n, c.length = n := by
  intro a
  induction a with
  | zero =>
    intro l fuel hl _
    rw [Nat.zero_mul, List.length_eq_zero] at hl
    subst hl
    cases fuel <;> cases n <;> exact ⟨rfl, by intro c hc; cases hc⟩
  | succ a ih =>
    intro l fuel hl hfuel
    have hpos : 0 < l.length := by
      rw [hl]
      exact Nat.mul_pos (Nat.succ_pos a) hn
    rcases l with _ | ⟨x, xs⟩
    · exact absurd hpos (by simp)
    rcases n with _ | m
    · exact absurd hn (by simp)
    rcases fuel with _ | f
    · rw [List.length_cons] at hfuel
      omega
    rw [chunkAux]
    have hxs : xs.length = a * (m + 1) + m := by
      have h := hl
      rw [List.length_cons, Nat.succ_mul] at h
      omega
    have htake : ((x :: xs).take (m + 1)).length = m + 1 := by
      rw [List.length_take, List.length_cons]
      omega
    have hdrop : (xs.drop m).length = a * (m + 1) := by
      rw [List.length_drop]
      omega
    have hfuel2 : (xs.drop m).length ≤ f := by
      rw [List.length_drop]
      have h2 := hfuel
      rw [List.length_cons] at h2
      omega
    obtain ⟨ih1, ih2⟩ := ih (xs.drop m) f hdrop hfuel2
    refine ⟨by simp [ih1], ?_⟩
    intro c hc
    rcases List.mem_cons.mp hc with rfl | hc2
    · exact htake
    · exact ih2 c hc2

theorem chunk_shape (n a : Nat) (l : List γ) (hn : 0 < n) (hl : l.length = a * n) :
    (chunk n l).length = a ∧ ∀ c ∈ chunk n l, c.length = n :=
  chunkAux_shape n hn a l l.length hl (Nat.le_refl _)

theorem length_flatten_const (l : List (List γ)) (w : Nat) (h : ∀ r ∈ l, r.length = w) :
    l.flatten.length = l.length * w := by
  induction l with
  | nil => simp
  | cons x xs ih =>
    rw [List.flatten_cons, List.length_append, h x (List.mem_cons_self x xs),
      ih (fun r hr => h r (List.mem_cons_of_mem x hr)), List.length_cons]
    ring

theorem selectChannels_shape (ep : Epochs ℝ) :
    ep.selectChannels.length = ep.srows.length ∧
    ∀ r ∈ ep.selectChannels, r.length = ep.n_channels := by
  refine ⟨by simp [Epochs.selectChannels], ?_⟩
  intro r hr
  obtain ⟨s, -, hs⟩ := List.mem_map.mp hr
  rw [← hs, List.length_map]
  rfl

theorem valuesArr_shape (ep : Epochs ℝ) (hc : 0 < ep.n_channels) (hs : 0 < ep.n_samples)
    (ha : ep.srows.length * ep.n_channels = ep.n_channels * ep.n_epochs * ep.n_samples) :
    ep.valuesArr.length = ep.n_epochs ∧
    ∀ b ∈ ep.valuesArr, b.length = ep.n_samples ∧ ∀ r ∈ b, r.length = ep.n_channels := by
  obtain ⟨hsel1, hsel2⟩ := selectChannels_shape ep
  have hL : ep.srows.length = ep.n_epochs * ep.n_samples := by
    have h1 : ep.n_channels * ep.srows.length = ep.n_channels * (ep.n_epochs * ep.n_samples) := by
      rw [Nat.mul_comm ep.n_channels ep.srows.length, ha]
      ring
    exact Nat.eq_of_mul_eq_mul_left hc h1
  have hflat : ep.selectChannels.flatten.length
      = ep.n_epochs * (ep.n_samples * ep.n_channels) := by
    rw [length_flatten_const ep.selectChannels ep.n_channels hsel2, hsel1, hL]
    ring
  obtain ⟨h1, h2⟩ := chunk_shape (ep.n_samples * ep.n_channels) ep.n_epochs
    ep.selectChannels.flatten (Nat.mul_pos hs hc) hflat
  unfold Epochs.valuesArr
  refine ⟨by rw [List.length_map]; exact h1, ?_⟩
  intro b hb
  obtain ⟨cchunk, hcmem, hcb⟩ := List.mem_map.mp hb
  obtain ⟨h3, h4⟩ := chunk_shape ep.n_channels ep.n_samples cchunk hc (h2 cchunk hcmem)
  exact ⟨by rw [← hcb]; exact h3, by rw [← hcb]; exact h4⟩

theorem foldl_vecAdd_allzero (rows : List (List ℝ)) (h : ∀ r ∈ rows, ∀ x ∈ r, x = 0) :
    ∀ (acc : List ℝ), (∀ x ∈ acc, x = 0) → ∀ x ∈ rows.foldl vecAdd acc, x = 0 := by
  induction rows with
  | nil => exact fun acc hacc => hacc
  | cons r rs ih =>
    intro acc hacc
    rw [List.foldl_cons]
    apply ih (fun q hq => h q (List.mem_cons_of_mem r hq))
    intro x hx
    unfold vecAdd at hx
    rw [List.mem_iff_getElem] at hx
    obtain ⟨i, hi, hix⟩ := hx
    rw [List.getElem_zipWith] at hix
    rw [← hix, hacc _ (List.getElem_mem _),
      h r (List.mem_cons_self r rs) _ (List.getElem_mem _), add_zero]

theorem colSums_allzero (b : List (List ℝ)) (h : ∀ r ∈ b, ∀ x ∈ r, x = 0) :
    ∀ x ∈ colSums b, x = 0 := by
  unfold colSums
  exact foldl_vecAdd_allzero b h _ (fun x hx => List.eq_of_mem_replicate hx)

theorem l2_norm3_allzero (data : List (List (List ℝ)))
    (h : ∀ b ∈ data, ∀ r ∈ b, ∀ x ∈ r, x = 0) :
    ∀ r ∈ l2_norm3 data, ∀ x ∈ r, x = 0 := by
  intro r hr x hx
  obtain ⟨b, hb, hbr⟩ := List.mem_map.mp hr
  rw [← hbr] at hx
  obtain ⟨y, hy, hxy⟩ := List.mem_map.mp hx
  have hy0 : y = 0 := by
    apply colSums_allzero (b.map (fun row => row.map (fun x => x * x))) ?_ y hy
    intro r2 hr2 z hz
    obtain ⟨row, hrow, hr3⟩ := List.mem_map.mp hr2
    rw [← hr3] at hz
    obtain ⟨w, hw, hwz⟩ := List.mem_map.mp hz
    rw [← hwz, h b hb row hrow w hw, mul_zero]
  rw [← hxy, hy0, Real.sqrt_zero]

theorem l2_norm2_allzero (data : List (List ℝ)) (h : ∀ r ∈ data, ∀ x ∈ r, x = 0) :
    ∀ x ∈ l2_norm2 data, x = 0 := by
  intro x hx
  obtain ⟨r, hr, hrx⟩ := List.mem_map.mp hx
  have hsum : (r.map (fun x => x * x)).sum = 0 := by
    apply List.sum_eq_zero
    intro z hz
    obtain ⟨w, hw, hwz⟩ := List.mem_map.mp hz
    rw [← hwz, h r hr w hw, mul_zero]
  rw [← hrx, hsum, Real.sqrt_zero]

theorem matAdd_scale (b0 : List (List ℝ)) (k : ℝ) :
    matAdd (b0.map (fun row => row.map (fun x => k * x))) b0
      = b0.map (fun row => row.map (fun x => (k + 1) * x)) := by
  unfold matAdd
  rw [List.zipWith_map_left, List.zipWith_same]
  apply List.map_congr_left
  intro row _
  unfold vecAdd
  rw [List.zipWith_map_left, List.zipWith_same]
  apply List.map_congr_left
  intro x _
  ring

theorem foldl_matAdd_identical (b0 : List (List ℝ)) :
    ∀ (bs : List (List (List ℝ))), (∀ b ∈ bs, b = b0) → ∀ k : ℝ,
      bs.foldl matAdd (b0.map (fun row => row.map (fun x => k * x)))
        = b0.map (fun row => row.map (fun x => (k + bs.length) * x)) := by
  intro bs
  induction bs with
  | nil =>
    intro _ k
    simp
  | cons b bs ih =>
    intro h k
    rw [List.foldl_cons, h b (List.mem_cons_self b bs), matAdd_scale,
      ih (fun q hq => h q (List.mem_cons_of_mem b hq)) (k + 1), List.length_cons]
    apply List.map_congr_left
    intro row _
    apply List.map_congr_left
    intro x _
    push_cast
    ring

theorem meanArr_identical (ep : Epochs ℝ) (b0 : List (List ℝ))
    (bs1 : List (List (List ℝ))) (hv : ep.valuesArr = b0 :: bs1)
    (hall : ∀ b ∈ bs1, b = b0) : ep.meanArr = b0 := by
  have hm : ep.meanArr = (bs1.foldl matAdd b0).map (fun row =>
      row.map (fun x => x / (((b0 :: bs1).length) : ℝ))) := by
    unfold Epochs.meanArr
    rw [hv]
  have hb0 : b0.map (fun row => row.map (fun x => (1 : ℝ) * x)) = b0 := by
    simp
  have hfold : bs1.foldl matAdd b0
      = b0.map (fun row => row.map (fun x => ((1 : ℝ) + bs1.length) * x)) := by
    conv_lhs => rw [← hb0]
    exact foldl_matAdd_identical b0 bs1 hall 1
  rw [hm, hfold, List.map_map]
  have hne : (1 : ℝ) + (bs1.length : ℝ) ≠ 0 := by positivity
  have hlen : (((b0 :: bs1).length : ℕ) : ℝ) = 1 + (bs1.length : ℝ) := by
    rw [List.length_cons]
    push_cast
    ring
  have hrow : ∀ row : List ℝ, ((fun row : List ℝ =>
      row.map (fun x => x / (((b0 :: bs1).length) : ℝ))) ∘
      (fun row : List ℝ => row.map (fun x => ((1 : ℝ) + bs1.length) * x))) row = row := by
    intro row
    simp only [Function.comp_apply, List.map_map]
    have hfun : ((fun x : ℝ => x / (((b0 :: bs1).length) : ℝ)) ∘
        (fun x : ℝ => ((1 : ℝ) + bs1.length) * x)) = id := by
      funext x
      simp only [Function.comp_apply, hlen, id]
      rw [mul_div_cancel_left₀ x hne]
    rw [hfun, List.map_id]
  calc b0.map ((fun row : List ℝ =>
        row.map (fun x => x / (((b0 :: bs1).length) : ℝ))) ∘
        (fun row : List ℝ => row.map (fun x => ((1 : ℝ) + bs1.length) * x)))
      = b0.map id := List.map_congr_left (fun row _ => hrow row)
    _ = b0 := List.map_id b0

theorem matSub_self_allzero (b : List (List ℝ)) : ∀ r ∈ matSub b b, ∀ x ∈ r, x = 0 := by
  unfold matSub
  rw [List.zipWith_same]
  intro r hr x hx
  obtain ⟨row, -, hr2⟩ := List.mem_map.mp hr
  rw [← hr2, List.zipWith_same] at hx
  obtain ⟨y, -, hy⟩ := List.mem_map.mp hx
  rw [← hy, sub_self]

theorem distances_arr_length (ep : Epochs ℝ) :
    ep.distances_arr.length = ep.valuesArr.length := by
  simp [Epochs.distances_arr, l2_norm2, l2_norm3, Epochs.diffArr]

theorem distances_arr_identical_zero (ep : Epochs ℝ) (b0 : List (List ℝ))
    (bs1 : List (List (List ℝ))) (hv : ep.valuesArr = b0 :: bs1)
    (hall : ∀ b ∈ bs1, b = b0) : ∀ x ∈ ep.distances_arr, x = 0 := by
  have hmean : ep.meanArr = b0 := meanArr_identical ep b0 bs1 hv hall
  have hdiff : ∀ d ∈ ep.diffArr, ∀ r ∈ d, ∀ x ∈ r, x = 0 := by
    intro d hd
    unfold Epochs.diffArr at hd
    obtain ⟨b, hb, hbd⟩ := List.mem_map.mp hd
    have hb0 : b = b0 := by
      rw [hv] at hb
      rcases List.mem_cons.mp hb with rfl | hb2
      · rfl
      · exact hall b hb2
    rw [← hbd, hb0, hmean]
    exact matSub_self_allzero b0
  exact l2_norm2_allzero _ (l2_norm3_allzero _ hdiff)

theorem foldl_max_mem (d : ℝ) (ds : List ℝ) : ds.foldl max d ∈ d :: ds := by
  induction ds generalizing d with
  | nil => exact List.mem_cons_self d []
  | cons x xs ih =>
    rw [List.foldl_cons]
    rcases List.mem_cons.mp (ih (max d x)) with h | h
    · rcases max_choice d x with hm | hm
      · rw [h, hm]
        exact List.mem_cons_self d (x :: xs)
      · rw [h, hm]
        exact List.mem_cons_of_mem d (List.mem_cons_self x xs)
    · exact List.mem_cons_of_mem d (List.mem_cons_of_mem x h)

theorem le_foldl_max (d : ℝ) (ds : List ℝ) : ∀ x ∈ d :: ds, x ≤ ds.foldl max d := by
  induction ds generalizing d with
  | nil =>
    intro x hx
    rcases List.mem_cons.mp hx with rfl | hx2
    · exact le_refl x
    · cases hx2
  | cons y ys ih =>
    intro x hx
    rw [List.foldl_cons]
    rcases List.mem_cons.mp hx with rfl | hx2
    · exact le_trans (le_max_left x y) (ih (max x y) _ (List.mem_cons_self _ ys))
    rcases List.mem_cons.mp hx2 with rfl | hx3
    · exact le_trans (le_max_right d x) (ih (max d x) _ (List.mem_cons_self _ ys))
    · exact ih (max d y) x (List.mem_cons_of_mem _ hx3)

theorem zip_replicate_right (l : List Int) (c : NpFloat) :
    l.zip (List.replicate l.length c) = l.map (fun x => (x, c)) := by
  induction l with
  | nil => rfl
  | cons x xs ih =>
    rw [List.length_cons, List.replicate_succ, List.zip_cons_cons, ih, List.map_cons]

theorem distances_identical_nan_aux (ep : Epochs ℝ)
    (hc : 0 < ep.n_channels) (hs : 0 < ep.n_samples) (he : 0 < ep.n_epochs)
    (ha : ep.srows.length * ep.n_channels = ep.n_channels * ep.n_epochs * ep.n_samples)
    (hidx : ep.epochIndex.length = ep.n_epochs)
    (hall : ∀ b ∈ ep.valuesArr, b = ep.valuesArr.headD []) :
    ep.distances = .ok (ep.epochIndex.map (fun i => (i, NpFloat.nan))) := by
  obtain ⟨hvlen, -⟩ := valuesArr_shape ep hc hs ha
  rcases hv : ep.valuesArr with _ | ⟨b0, bs1⟩
  · rw [hv] at hvlen
    simp at hvlen
    omega
  have hall2 : ∀ b ∈ bs1, b = b0 := by
    intro b hb
    have hx := hall b (by rw [hv]; exact List.mem_cons_of_mem _ hb)
    rwa [hv] at hx
  have hzero : ∀ x ∈ ep.distances_arr, x = 0 :=
    distances_arr_identical_zero ep b0 bs1 hv hall2
  have hdlen : ep.distances_arr.length = ep.n_epochs := by
    rw [distances_arr_length, ← hvlen]
  rcases hd : ep.distances_arr with _ | ⟨d, ds⟩
  · rw [hd] at hdlen
    simp at hdlen
    omega
  unfold Epochs.distances
  rw [if_neg (fun hne => hne ha), hd]
  have hlen2 : ep.epochIndex.length = (d :: ds).length := by
    rw [hidx, ← hdlen, hd]
  dsimp only
  rw [if_neg (fun hne => hne hlen2)]
  have hm : ds.foldl max d = 0 := by
    apply hzero
    rw [hd]
    exact foldl_max_mem d ds
  have hmap : (d :: ds).map (fun x => npDiv x (ds.foldl max d))
      = List.replicate (d :: ds).length NpFloat.nan := by
    have hcongr : (d :: ds).map (fun x => npDiv x (ds.foldl max d))
        = (d :: ds).map (fun _ => NpFloat.nan) := by
      apply List.map_congr_left
      intro x hx
      have hx0 : x = 0 := by
        apply hzero
        rw [hd]
        exact hx
      rw [hx0, hm]
      unfold npDiv
      simp
    rw [hcongr, List.map_const']
  rw [hmap, show (d :: ds).length = ep.epochIndex.length from hlen2.symm,
    zip_replicate_right]

/-- C4 (amended): when all trials' channel-value trajectories are identical —
so every trial's raw distance from the mean trajectory is zero — `distances`
performs the scaling division 0/0 and therefore returns NaN for EVERY trial
identifier, not the value 0.0. -/
theorem distances_all_identical_nan (ep : Epochs ℝ)
    (hc : 0 < ep.n_channels) (hs : 0 < ep.n_samples) (he : 0 < ep.n_epochs)
    (ha : ep.srows.length * ep.n_channels = ep.n_channels * ep.n_epochs * ep.n_samples)
    (hidx : ep.epochIndex.length = ep.n_epochs)
    (hall : ∀ b ∈ ep.valuesArr, b = ep.valuesArr.headD []) :
    ep.distances = .ok (ep.epochIndex.map (fun i => (i, NpFloat.nan))) :=
  distances_identical_nan_aux ep hc hs he ha hidx hall

/-- Witness for the amended C4 theorem: two identical trials. -/
theorem distances_all_identical_nan_witness :
    (0 < epSame.n_channels ∧ 0 < epSame.n_samples ∧ 0 < epSame.n_epochs ∧
      epSame.srows.length * epSame.n_channels
        = epSame.n_channels * epSame.n_epochs * epSame.n_samples ∧
      epSame.epochIndex.length = epSame.n_epochs) ∧
    epSame.distances = .ok (epSame.epochIndex.map (fun i => (i, NpFloat.nan))) :=
  ⟨⟨by decide, by decide, by decide, by decide, by decide⟩,
    distances_all_identical_nan epSame (by decide) (by decide) (by decide) (by decide)
      (by decide)
      (by
        intro b hb
        have hv : epSame.valuesArr = [[[(5 : ℝ)]], [[(5 : ℝ)]]] := rfl
        rw [hv] at hb ⊢
        rcases List.mem_cons.mp hb with rfl | hb2
        · rfl
        rcases List.mem_cons.mp hb2 with rfl | hb3
        · rfl
        · cases hb3)⟩

/-- C4 counterexample: with all trials identical, `distances` returns NaN for
every trial identifier (the scaling divides 0 by 0 under numpy semantics),
refuting the claim that the result is the value 0.0. -/
theorem distances_identical_not_zero :
    epSame.distances = .ok [(1, NpFloat.nan), (2, NpFloat.nan)] ∧
    NpFloat.nan ≠ NpFloat.val 0 := by
  constructor
  · have h := distances_identical_nan_aux epSame (by decide) (by decide) (by decide)
      (by decide) (by decide)
      (by
        intro b hb
        have hv : epSame.valuesArr = [[[(5 : ℝ)]], [[(5 : ℝ)]]] := rfl
        rw [hv] at hb ⊢
        rcases List.mem_cons.mp hb with rfl | hb2
        · rfl
        rcases List.mem_cons.mp hb2 with rfl | hb3
        · rfl
        · cases hb3)
    rw [h]
    rfl
  · exact fun h => NpFloat.noConfusion h

theorem ex_getD_ne (u v : List γ) (d : γ) (hlen : u.length = v.length) (hne : u ≠ v) :
    ∃ i, i < u.length ∧ u.getD i d ≠ v.getD i d := by
  by_contra hcon
  push_neg at hcon
  apply hne
  apply List.ext_getElem hlen
  intro i h1 h2
  have hi := hcon i h1
  rwa [List.getD_eq_getElem u d h1, List.getD_eq_getElem v d h2] at hi

theorem matAdd_shape (a b : List (List ℝ)) (s w : Nat)
    (ha : a.length = s) (hb : b.length = s)
    (har : ∀ r ∈ a, r.length = w) (hbr : ∀ r ∈ b, r.length = w) :
    (matAdd a b).length = s ∧ ∀ r ∈ matAdd a b, r.length = w := by
  constructor
  · unfold matAdd
    rw [List.length_zipWith, ha, hb, Nat.min_self]
  · intro r hr
    unfold matAdd at hr
    rw [List.mem_iff_getElem] at hr
    obtain ⟨i, hi, hir⟩ := hr
    rw [List.getElem_zipWith] at hir
    unfold vecAdd at hir
    rw [← hir, List.length_zipWith, har _ (List.getElem_mem _), hbr _ (List.getElem_mem _),
      Nat.min_self]

theorem matSub_shape (a b : List (List ℝ)) (s w : Nat)
    (ha : a.length = s) (hb : b.length = s)
    (har : ∀ r ∈ a, r.length = w) (hbr : ∀ r ∈ b, r.length = w) :
    (matSub a b).length = s ∧ ∀ r ∈ matSub a b, r.length = w := by
  constructor
  · unfold matSub
    rw [List.length_zipWith, ha, hb, Nat.min_self]
  · intro r hr
    unfold matSub at hr
    rw [List.mem_iff_getElem] at hr
    obtain ⟨i, hi, hir⟩ := hr
    rw [List.getElem_zipWith] at hir
    rw [← hir, List.length_zipWith, har _ (List.getElem_mem _), hbr _ (List.getElem_mem _),
      Nat.min_self]

theorem foldl_matAdd_shape (bs : List (List (List ℝ))) (s w : Nat)
    (hbs : ∀ b ∈ bs, b.length = s ∧ ∀ r ∈ b, r.length = w) :
    ∀ (acc : List (List ℝ)), acc.length = s → (∀ r ∈ acc, r.length = w) →
      (bs.foldl matAdd acc).length = s ∧ ∀ r ∈ bs.foldl matAdd acc, r.length = w := by
  induction bs with
  | nil => exact fun acc h1 h2 => ⟨h1, h2⟩
  | cons b bs ih =>
    intro acc h1 h2
    rw [List.foldl_cons]
    obtain ⟨hb1, hb2⟩ := hbs b (List.mem_cons_self b bs)
    obtain ⟨m1, m2⟩ := matAdd_shape acc b s w h1 hb1 h2 hb2
    exact ih (fun q hq => hbs q (List.mem_cons_of_mem _ hq)) _ m1 m2

theorem meanArr_shape (ep : Epochs ℝ) (s w : Nat)
    (hv : ∀ b ∈ ep.valuesArr, b.length = s ∧ ∀ r ∈ b, r.length = w)
    (hne : ep.valuesArr ≠ []) :
    ep.meanArr.length = s ∧ ∀ r ∈ ep.meanArr, r.length = w := by
  rcases hvv : ep.valuesArr with _ | ⟨b0, bs⟩
  · exact absurd hvv hne
  have hm : ep.meanArr = (bs.foldl matAdd b0).map (fun row =>
      row.map (fun x => x / (((b0 :: bs).length) : ℝ))) := by
    unfold Epochs.meanArr
    rw [hvv]
  obtain ⟨hb1, hb2⟩ := hv b0 (by rw [hvv]; exact List.mem_cons_self b0 bs)
  obtain ⟨f1, f2⟩ := foldl_matAdd_shape bs s w
    (fun q hq => hv q (by rw [hvv]; exact List.mem_cons_of_mem _ hq)) b0 hb1 hb2
  rw [hm]
  constructor
  · rw [List.length_map]
    exact f1
  · intro r hr
    obtain ⟨row, hrow, hrr⟩ := List.mem_map.mp hr
    rw [← hrr, List.length_map]
    exact f2 row hrow

theorem foldl_vecAdd_spec (rows : List (List ℝ)) (w : Nat) (hw : ∀ r ∈ rows, r.length = w) :
    ∀ (acc : List ℝ), acc.length = w →
      (rows.foldl vecAdd acc).length = w ∧
      (∀ j, j < w → (rows.foldl vecAdd acc).getD j 0
        = acc.getD j 0 + (rows.map (fun r => r.getD j 0)).sum) := by
  induction rows with
  | nil =>
    intro acc h1
    exact ⟨h1, fun j _ => by simp⟩
  | cons r rs ih =>
    intro acc h1
    rw [List.foldl_cons]
    have hrlen : r.length = w := hw r (List.mem_cons_self r rs)
    have hvlen : (vecAdd acc r).length = w := by
      unfold vecAdd
      rw [List.length_zipWith, h1, hrlen, Nat.min_self]
    obtain ⟨g1, g2⟩ := ih (fun q hq => hw q (List.mem_cons_of_mem _ hq)) (vecAdd acc r) hvlen
    refine ⟨g1, fun j hj => ?_⟩
    rw [g2 j hj]
    have hva : (vecAdd acc r).getD j 0 = acc.getD j 0 + r.getD j 0 := by
      unfold vecAdd
      rw [List.getD_eq_getElem _ 0 (by rw [List.length_zipWith, h1, hrlen, Nat.min_self]; exact hj),
        List.getElem_zipWith, List.getD_eq_getElem acc 0 (by rw [h1]; exact hj),
        List.getD_eq_getElem r 0 (by rw [hrlen]; exact hj)]
    rw [hva, List.map_cons, List.sum_cons]
    ring

theorem colSums_spec (b : List (List ℝ)) (w : Nat) (hne : b ≠ [])
    (hw : ∀ r ∈ b, r.length = w) :
    (colSums b).length = w ∧
    ∀ j, j < w → (colSums b).getD j 0 = (b.map (fun r => r.getD j 0)).sum := by
  have hhead : (b.headD []).length = w := by
    rcases b with _ | ⟨r, rs⟩
    · exact absurd rfl hne
    · exact hw r (List.mem_cons_self r rs)
  unfold colSums
  rw [hhead]
  obtain ⟨g1, g2⟩ := foldl_vecAdd_spec b w hw (List.replicate w 0) (List.length_replicate w 0)
  refine ⟨g1, fun j hj => ?_⟩
  rw [g2 j hj, List.getD_eq_getElem _ 0 (by rw [List.length_replicate]; exact hj),
    List.getElem_replicate, zero_add]

theorem distances_arr_eq_map (ep : Epochs ℝ) :
    ep.distances_arr = ep.diffArr.map (fun db =>
      Real.sqrt ((((colSums (db.map (fun row => row.map (fun x => x * x)))).map
        Real.sqrt).map (fun x => x * x)).sum)) := by
  unfold Epochs.distances_arr l2_norm2 l2_norm3
  rw [List.map_map]
  rfl

theorem distances_arr_nonneg (ep : Epochs ℝ) : ∀ x ∈ ep.distances_arr, 0 ≤ x := by
  intro x hx
  rw [distances_arr_eq_map] at hx
  obtain ⟨db, -, hdb⟩ := List.mem_map.mp hx
  rw [← hdb]
  exact Real.sqrt_nonneg _

theorem matSub_getD (a b : List (List ℝ)) (j c : Nat)
    (hja : j < a.length) (hjb : j < b.length)
    (hca : c < (a.getD j []).length) (hcb : c < (b.getD j []).length) :
    ((matSub a b).getD j []).getD c 0
      = (a.getD j []).getD c 0 - (b.getD j []).getD c 0 := by
  have hag : a.getD j [] = a[j] := List.getD_eq_getElem a [] hja
  have hbg : b.getD j [] = b[j] := List.getD_eq_getElem b [] hjb
  rw [hag] at hca
  rw [hbg] at hcb
  have hjz : j < (matSub a b).length := by
    unfold matSub
    rw [List.length_zipWith, lt_min_iff]
    exact ⟨hja, hjb⟩
  have hz : (matSub a b).getD j [] = List.zipWith (fun u v => u - v) a[j] b[j] := by
    rw [List.getD_eq_getElem _ [] hjz]
    unfold matSub
    rw [List.getElem_zipWith]
  rw [hz, hag, hbg,
    List.getD_eq_getElem _ 0 (by rw [List.length_zipWith, lt_min_iff]; exact ⟨hca, hcb⟩),
    List.getElem_zipWith, List.getD_eq_getElem _ 0 hca, List.getD_eq_getElem _ 0 hcb]

theorem block_norm_pos (db : List (List ℝ)) (w : Nat) (j c : Nat)
    (hw : ∀ r ∈ db, r.length = w) (hj : j < db.length) (hc : c < w)
    (hne0 : (db.getD j []).getD c 0 ≠ 0) :
    0 < Real.sqrt ((((colSums (db.map (fun row => row.map (fun x => x * x)))).map
      Real.sqrt).map (fun x => x * x)).sum) := by
  have hdbne : db ≠ [] := by
    intro h
    rw [h] at hj
    simp at hj
  set e := (db.getD j []).getD c 0 with he
  set sqb := db.map (fun row => row.map (fun x => x * x)) with hsqb
  have hsqw : ∀ r ∈ sqb, r.length = w := by
    intro r hr
    obtain ⟨row, hrow, hrr⟩ := List.mem_map.mp hr
    rw [← hrr, List.length_map]
    exact hw row hrow
  have hsqbne : sqb ≠ [] := by
    rw [hsqb, ne_eq, List.map_eq_nil_iff]
    exact hdbne
  obtain ⟨hcs1, hcs2⟩ := colSums_spec sqb w hsqbne hsqw
  -- the (j, c) entry of the squared block is e^2
  have hjsq : j < sqb.length := by
    rw [hsqb, List.length_map]
    exact hj
  have hrowj : sqb.getD j [] = (db.getD j []).map (fun x => x * x) := by
    rw [List.getD_eq_getElem sqb [] hjsq, List.getD_eq_getElem db [] hj]
    simp only [hsqb, List.getElem_map]
  have hentry : (sqb.getD j []).getD c 0 = e * e := by
    have hcrow : c < (db.getD j []).length := by
      rw [List.getD_eq_getElem db [] hj, hw _ (List.getElem_mem _)]
      exact hc
    rw [hrowj, List.getD_eq_getElem _ 0 (by rw [List.length_map]; exact hcrow),
      List.getElem_map, he, List.getD_eq_getElem _ 0 hcrow]
  -- the column sum at c dominates e^2
  have hmemcol : (sqb.getD j []).getD c 0 ∈ sqb.map (fun r => r.getD c 0) := by
    rw [List.getD_eq_getElem sqb [] hjsq]
    exact List.mem_map_of_mem _ (List.getElem_mem _)
  have hnonnegcol : ∀ y ∈ sqb.map (fun r => r.getD c 0), 0 ≤ y := by
    intro y hy
    obtain ⟨r, hr, hry⟩ := List.mem_map.mp hy
    obtain ⟨row, hrow, hrr⟩ := List.mem_map.mp (hsqb ▸ hr)
    rcases Nat.lt_or_ge c r.length with hcr | hcr
    · rw [← hry, ← hrr, List.getD_eq_getElem _ 0 (by rw [← hrr] at hcr; exact hcr)]
      rw [← hrr] at hcr
      rw [List.getElem_map]
      exact mul_self_nonneg _
    · rw [← hry, List.getD_eq_default _ 0 hcr]
  have hS : 0 < (colSums sqb).getD c 0 := by
    rw [hcs2 c hc]
    have h1 : e * e ≤ (sqb.map (fun r => r.getD c 0)).sum := by
      rw [← hentry]
      exact List.single_le_sum hnonnegcol _ hmemcol
    have h2 : 0 < e * e := mul_self_pos.mpr hne0
    linarith
  -- the sqrt of the column sum is a positive member of the norm row
  have hsq1 : 0 < Real.sqrt ((colSums sqb).getD c 0) := Real.sqrt_pos.mpr hS
  have hcl : c < (colSums sqb).length := by
    rw [hcs1]
    exact hc
  have hmem2 : Real.sqrt ((colSums sqb).getD c 0) ∈ (colSums sqb).map Real.sqrt := by
    rw [List.getD_eq_getElem _ 0 hcl]
    exact List.mem_map_of_mem _ (List.getElem_mem _)
  -- its square is a positive member of the final sum
  have hmem3 : Real.sqrt ((colSums sqb).getD c 0) * Real.sqrt ((colSums sqb).getD c 0)
      ∈ ((colSums sqb).map Real.sqrt).map (fun x => x * x) :=
    List.mem_map_of_mem _ hmem2
  have hnonneg3 : ∀ y ∈ ((colSums sqb).map Real.sqrt).map (fun x => x * x), 0 ≤ y := by
    intro y hy
    obtain ⟨z, -, hzy⟩ := List.mem_map.mp hy
    rw [← hzy]
    exact mul_self_nonneg _
  apply Real.sqrt_pos.mpr
  have h3 : Real.sqrt ((colSums sqb).getD c 0) * Real.sqrt ((colSums sqb).getD c 0)
      ≤ (((colSums sqb).map Real.sqrt).map (fun x => x * x)).sum :=
    List.single_le_sum hnonneg3 _ hmem3
  nlinarith [hsq1]

/-- C5 (amended): whenever not all trials are identical, `distances` returns
one value per trial identifier (paired with `self._epoch_index`), every value
is an ordinary float in [0, 1], and AT LEAST one trial's value equals exactly
1.0 — each most-extreme trial; when several trials tie for the maximum
distance, each of them gets 1.0, so "exactly one" does not hold in general. -/
theorem distances_scaled_unit_interval (ep : Epochs ℝ)
    (hc : 0 < ep.n_channels) (hs : 0 < ep.n_samples) (he : 0 < ep.n_epochs)
    (ha : ep.srows.length * ep.n_channels = ep.n_channels * ep.n_epochs * ep.n_samples)
    (hidx : ep.epochIndex.length = ep.n_epochs)
    (hne : ∃ b ∈ ep.valuesArr, b ≠ ep.valuesArr.headD []) :
    ∃ out, ep.distances = .ok out ∧ out.map Prod.fst = ep.epochIndex ∧
      (∀ p ∈ out, ∃ x, p.2 = NpFloat.val x ∧ 0 ≤ x ∧ x ≤ 1) ∧
      (∃ p ∈ out, p.2 = NpFloat.val 1) := by
  obtain ⟨hvlen, hvshape⟩ := valuesArr_shape ep hc hs ha
  have hvne : ep.valuesArr ≠ [] := by
    intro h
    rw [h] at hvlen
    simp at hvlen
    omega
  obtain ⟨bb, hbb, hbbne⟩ := hne
  have hb0mem : ep.valuesArr.headD [] ∈ ep.valuesArr := by
    rcases hvv : ep.valuesArr with _ | ⟨x, xs⟩
    · exact absurd hvv hvne
    · rw [List.headD_cons]
      exact List.mem_cons_self x xs
  set b0 := ep.valuesArr.headD [] with hb0
  obtain ⟨hbbl, hbbr⟩ := hvshape bb hbb
  obtain ⟨hb0l, hb0r⟩ := hvshape b0 hb0mem
  obtain ⟨j, hj, hrowne⟩ := ex_getD_ne bb b0 [] (by rw [hbbl, hb0l]) hbbne
  have hjs : j < ep.n_samples := by
    rw [← hbbl]
    exact hj
  have hrbmem : bb.getD j [] ∈ bb := by
    rw [List.getD_eq_getElem bb [] hj]
    exact List.getElem_mem _
  have hr0mem : b0.getD j [] ∈ b0 := by
    rw [List.getD_eq_getElem b0 [] (by rw [hb0l]; exact hjs)]
    exact List.getElem_mem _
  obtain ⟨cix, hcix, hentryne⟩ := ex_getD_ne (bb.getD j []) (b0.getD j []) 0
    (by rw [hbbr _ hrbmem, hb0r _ hr0mem]) hrowne
  have hcw : cix < ep.n_channels := by
    rw [← hbbr _ hrbmem]
    exact hcix
  obtain ⟨hm1, hm2⟩ := meanArr_shape ep ep.n_samples ep.n_channels hvshape hvne
  have hjm : j < ep.meanArr.length := by
    rw [hm1]
    exact hjs
  have hmrow : cix < (ep.meanArr.getD j []).length := by
    rw [List.getD_eq_getElem _ [] hjm, hm2 _ (List.getElem_mem _)]
    exact hcw
  have hdbb : ((matSub bb ep.meanArr).getD j []).getD cix 0
      = (bb.getD j []).getD cix 0 - (ep.meanArr.getD j []).getD cix 0 :=
    matSub_getD bb ep.meanArr j cix hj hjm hcix hmrow
  have hdb0 : ((matSub b0 ep.meanArr).getD j []).getD cix 0
      = (b0.getD j []).getD cix 0 - (ep.meanArr.getD j []).getD cix 0 :=
    matSub_getD b0 ep.meanArr j cix (by rw [hb0l]; exact hjs) hjm
      (by rw [hb0r _ hr0mem]; exact hcw) hmrow
  have hpick : ∃ B ∈ ep.valuesArr, ((matSub B ep.meanArr).getD j []).getD cix 0 ≠ 0 := by
    by_cases hz : (bb.getD j []).getD cix 0 - (ep.meanArr.getD j []).getD cix 0 = 0
    · refine ⟨b0, hb0mem, ?_⟩
      rw [hdb0]
      intro h0
      apply hentryne
      rw [sub_eq_zero.mp hz, sub_eq_zero.mp h0]
    · exact ⟨bb, hbb, by rw [hdbb]; exact hz⟩
  obtain ⟨B, hB, hBne⟩ := hpick
  have hDmem : matSub B ep.meanArr ∈ ep.diffArr := by
    unfold Epochs.diffArr
    exact List.mem_map_of_mem _ hB
  obtain ⟨hBl, hBr⟩ := hvshape B hB
  obtain ⟨hD1, hD2⟩ := matSub_shape B ep.meanArr ep.n_samples ep.n_channels hBl hm1 hBr hm2
  have hv0 : 0 < Real.sqrt ((((colSums ((matSub B ep.meanArr).map
      (fun row => row.map (fun x => x * x)))).map Real.sqrt).map (fun x => x * x)).sum) :=
    block_norm_pos (matSub B ep.meanArr) ep.n_channels j cix hD2
      (by rw [hD1]; exact hjs) hcw hBne
  have hvmem : Real.sqrt ((((colSums ((matSub B ep.meanArr).map
      (fun row => row.map (fun x => x * x)))).map Real.sqrt).map (fun x => x * x)).sum)
      ∈ ep.distances_arr := by
    rw [distances_arr_eq_map]
    exact List.mem_map_of_mem _ hDmem
  have hdlen : ep.distances_arr.length = ep.n_epochs := by
    rw [distances_arr_length, hvlen]
  rcases hd : ep.distances_arr with _ | ⟨d, ds⟩
  · rw [hd] at hdlen
    simp at hdlen
    omega
  have hMmem : ds.foldl max d ∈ ep.distances_arr := by
    rw [hd]
    exact foldl_max_mem d ds
  have hMle : ∀ x ∈ ep.distances_arr, x ≤ ds.foldl max d := by
    rw [hd]
    exact le_foldl_max d ds
  have hMpos : 0 < ds.foldl max d := lt_of_lt_of_le hv0 (hMle _ hvmem)
  have hMne : ds.foldl max d ≠ 0 := ne_of_gt hMpos
  unfold Epochs.distances
  rw [if_neg (fun hcon => hcon ha), hd]
  have hlen2 : ep.epochIndex.length = (d :: ds).length := by
    rw [hidx, ← hdlen, hd]
  dsimp only
  rw [if_neg (fun hcon => hcon hlen2)]
  refine ⟨_, rfl, ?_, ?_, ?_⟩
  · apply List.map_fst_zip
    rw [List.length_map, hlen2]
  · intro p hp
    have hp2 := (List.of_mem_zip hp).2
    obtain ⟨x, hx, hxp⟩ := List.mem_map.mp hp2
    have hxd : x ∈ ep.distances_arr := by
      rw [hd]
      exact hx
    refine ⟨x / ds.foldl max d, ?_, ?_, ?_⟩
    · rw [← hxp]
      unfold npDiv
      rw [if_neg hMne]
    · exact div_nonneg (distances_arr_nonneg ep x hxd) (le_of_lt hMpos)
    · exact (div_le_one hMpos).mpr (hMle x hxd)
  · have hMmem2 : ds.foldl max d ∈ d :: ds := by
      rw [← hd]
      exact hMmem
    obtain ⟨i, hi, hiM⟩ := List.mem_iff_getElem.mp hMmem2
    have hil : i < ep.epochIndex.length := by
      rw [hlen2]
      exact hi
    have hiz : i < (ep.epochIndex.zip
        ((d :: ds).map (fun x => npDiv x (ds.foldl max d)))).length := by
      rw [List.length_zip, List.length_map, lt_min_iff]
      exact ⟨hil, hi⟩
    have him : i < ((d :: ds).map (fun x => npDiv x (ds.foldl max d))).length := by
      rw [List.length_map]
      exact hi
    refine ⟨(ep.epochIndex.zip ((d :: ds).map (fun x => npDiv x (ds.foldl max d))))[i],
      List.getElem_mem _, ?_⟩
    rw [List.getElem_zip]
    show ((d :: ds).map (fun x => npDiv x (ds.foldl max d)))[i] = NpFloat.val 1
    rw [List.getElem_map, hiM]
    unfold npDiv
    rw [if_neg hMne, div_self hMne]

/-- Witness for the amended C5 theorem: two distinct trials. -/
theorem distances_scaled_unit_interval_witness :
    (0 < epTie.n_channels ∧ 0 < epTie.n_samples ∧ 0 < epTie.n_epochs ∧
      epTie.srows.length * epTie.n_channels
        = epTie.n_channels * epTie.n_epochs * epTie.n_samples ∧
      epTie.epochIndex.length = epTie.n_epochs) ∧
    (∃ out, epTie.distances = .ok out ∧ out.map Prod.fst = epTie.epochIndex ∧
      (∀ p ∈ out, ∃ x, p.2 = NpFloat.val x ∧ 0 ≤ x ∧ x ≤ 1) ∧
      (∃ p ∈ out, p.2 = NpFloat.val 1)) :=
  ⟨⟨by decide, by decide, by decide, by decide, by decide⟩,
    distances_scaled_unit_interval epTie (by decide) (by decide) (by decide) (by decide)
      (by decide)
      ⟨[[(2 : ℝ)]],
        by
          rw [show epTie.valuesArr = [[[(0 : ℝ)]], [[(2 : ℝ)]]] from rfl]
          exact List.mem_cons_of_mem _ (List.mem_cons_self _ _),
        by
          rw [show epTie.valuesArr = [[[(0 : ℝ)]], [[(2 : ℝ)]]] from rfl]
          norm_num⟩⟩

/-- C5 counterexample: two trials tied for the maximum distance BOTH receive
the scaled value 1.0, refuting "exactly one trial's value equals 1.0"; the
trials are not identical (their values are 0 and 2). -/
theorem distances_tie_two_maxima :
    epTie.distances = .ok [(1, NpFloat.val 1), (2, NpFloat.val 1)] ∧
    epTie.valuesArr = [[[0]], [[2]]] ∧ (0 : ℝ) ≠ 2 := by
  refine ⟨?_, rfl, by norm_num⟩
  have hv : epTie.valuesArr = [[[(0 : ℝ)]], [[(2 : ℝ)]]] := rfl
  have hmean : epTie.meanArr = [[(1 : ℝ)]] := by
    unfold Epochs.meanArr
    rw [hv]
    norm_num [matAdd, vecAdd]
  have hdiff : epTie.diffArr = [[[(-1 : ℝ)]], [[(1 : ℝ)]]] := by
    unfold Epochs.diffArr
    rw [hv, hmean]
    norm_num [matSub]
  have harr : epTie.distances_arr = [1, 1] := by
    unfold Epochs.distances_arr l2_norm3 l2_norm2
    rw [hdiff]
    norm_num [colSums, vecAdd]
  unfold Epochs.distances
  rw [if_neg (by decide), harr]
  dsimp only
  rw [if_neg (by decide)]
  norm_num [npDiv]
  rfl
